import Mathlib

set_option maxRecDepth 40000

/-!
Shallow embedding of the sfmta middleware polling scripts
(`predictions/sfmta/middleware/predictions/umoiq.py` — JSON variant — and
`predictions/sfmta/middleware/predictions/proxy.py` — XML variant), together
with the shared cadence-scheduler arithmetic, and proofs of the spec claims.

Python values are modelled as follows: JSON payloads by the inductive `Json`;
Python `dict[k]` access (which raises `KeyError`) and type-mismatching uses by
`Except String`; machine floats/times by `ℚ` (epoch seconds); `datetime`
subtraction of two aware/naive datetimes by subtraction of epoch seconds.
-/

/-- JSON values, as produced by `resp.json()` (Python dict/list/str/num). -/
inductive Json where
  | null : Json
  | bool (b : Bool) : Json
  | num (q : ℚ) : Json
  | str (s : String) : Json
  | arr (elems : List Json) : Json
  | obj (pairs : List (String × Json)) : Json

instance {ε α : Type} [DecidableEq ε] [DecidableEq α] : DecidableEq (Except ε α) :=
  fun x y =>
  match x, y with
  | Except.ok a, Except.ok b =>
    if h : a = b then Decidable.isTrue (by rw [h])
    else Decidable.isFalse (by intro he; cases he; exact h rfl)
  | Except.error e, Except.error f =>
    if h : e = f then Decidable.isTrue (by rw [h])
    else Decidable.isFalse (by intro he; cases he; exact h rfl)
  | Except.ok _, Except.error _ => Decidable.isFalse (by intro h; cases h)
  | Except.error _, Except.ok _ => Decidable.isFalse (by intro h; cases h)

/-- Python `d[k]` on a dict: the first binding for `k`, if any. -/
def Json.get? (j : Json) (k : String) : Option Json :=
  match j with
  | .obj pairs => pairs.lookup k
  | _ => none

/-- Python `d[k]`, raising `KeyError` when the key is absent or the value is
not a dict. -/
def Json.getKey (j : Json) (k : String) : Except String Json :=
  match j.get? k with
  | some v => Except.ok v
  | none => Except.error ("KeyError: " ++ k)

/-- Use of a JSON value as a string (the well-typed payloads of this API carry
strings here; any other shape makes the Python record ill-typed downstream and
is modelled as a cycle-aborting error). -/
def Json.asStr : Json → Except String String
  | .str s => Except.ok s
  | _ => Except.error "TypeError: expected str"

/-- Use of a JSON value as a number. -/
def Json.asNum : Json → Except String ℚ
  | .num q => Except.ok q
  | _ => Except.error "TypeError: expected number"

/-- Python `for x in response_data` over a JSON array. -/
def Json.asArr : Json → Except String (List Json)
  | .arr l => Except.ok l
  | _ => Except.error "TypeError: expected list"

/-! ### Python string helpers: `s.split(',')`, `min`, `round`, `strftime` -/

/-- Accumulator-based core of Python `str.split` with a one-character
separator: cuts at every separator occurrence, keeping empty pieces. -/
def pySplitAux (sep : Char) : List Char → List Char → List (List Char)
  | [], acc => [acc.reverse]
  | c :: cs, acc =>
    if c = sep then acc.reverse :: pySplitAux sep cs []
    else pySplitAux sep cs (c :: acc)

/-- Python `s.split(sep)` for a single-character separator. -/
def pySplit (sep : Char) (s : String) : List String :=
  (pySplitAux sep s.data []).map (fun cs => String.mk cs)

/-- Lexicographic comparison of character lists by code point — the order
Python uses to compare strings. (Boolean and structurally recursive, so that
concrete comparisons evaluate; proved below to agree with `List Char` `≤`.) -/
def charListLe : List Char → List Char → Bool
  | [], _ => true
  | _ :: _, [] => false
  | a :: as, b :: bs =>
    if a < b then true else if b < a then false else charListLe as bs

/-- Python `a <= b` on strings: code-point lexicographic. -/
def strLeB (a b : String) : Bool := charListLe a.data b.data

/-- Python `a < b` on strings. -/
def strLtB (a b : String) : Bool := strLeB a b && !(a == b)

/-- Python `min(items)` on a list of strings: `None` models the `ValueError`
raised on an empty sequence; otherwise scan left keeping the current element
unless a strictly smaller one appears (so the earliest minimum wins ties). -/
def pyMinStr : List String → Option String
  | [] => none
  | x :: xs => some (xs.foldl (fun m y => if strLeB m y then m else y) x)

/-- Embedding of `min(pred['linkedVehicleIds'].split(','))`. -/
def minVehicleId (s : String) : Option String :=
  pyMinStr (pySplit ',' s)

/-- The same computation inside the record pipeline: Python `min` raises
`ValueError` on an empty sequence (proved below to never happen here). -/
def pyMinE (s : String) : Except String String :=
  match minVehicleId s with
  | some v => Except.ok v
  | none => Except.error "ValueError: min() arg is an empty sequence"

/-- Python 3 `round` to an integer: round-half-to-even. -/
def pyRound (q : ℚ) : Int :=
  if q - ⌊q⌋ < 1 / 2 then ⌊q⌋
  else if 1 / 2 < q - ⌊q⌋ then ⌊q⌋ + 1
  else if ⌊q⌋ % 2 = 0 then ⌊q⌋ else ⌊q⌋ + 1

/-- Gregorian civil date from days since the Unix epoch (the standard
days-from-civil inverse, used to model `datetime.fromtimestamp`). -/
def civilFromDays (z0 : Int) : Int × Int × Int :=
  let z := z0 + 719468
  let era := z / 146097
  let doe := z - era * 146097
  let yoe := (doe - doe / 1460 + doe / 36524 - doe / 146096) / 365
  let y := yoe + era * 400
  let doy := doe - (365 * yoe + yoe / 4 - yoe / 100)
  let mp := (5 * doy + 2) / 153
  let d := doy - (153 * mp + 2) / 5 + 1
  let m := mp + (if mp < 10 then 3 else -9)
  (if m ≤ 2 then y + 1 else y, m, d)

/-- Zero-padded two-digit rendering of a (nonnegative) integer. -/
def pad2 (n : Int) : String :=
  (if 0 ≤ n ∧ n < 10 then "0" else "") ++ toString n

/-- Model of `datetime.fromtimestamp(t).strftime("%Y%m%d")` at local-time
offset `tzOff` seconds from UTC. -/
def fmtYmd (t : ℚ) (tzOff : Int) : String :=
  let s := ⌊t⌋ + tzOff
  let days := s / 86400
  let ymd := civilFromDays days
  toString ymd.1 ++ pad2 ymd.2.1 ++ pad2 ymd.2.2

/-- Model of `datetime.fromtimestamp(t).strftime("%H:%M:%S")` at local-time
offset `tzOff` seconds from UTC. -/
def fmtHms (t : ℚ) (tzOff : Int) : String :=
  let s := ⌊t⌋ + tzOff
  let sod := s % 86400
  pad2 (sod / 3600) ++ ":" ++ pad2 (sod % 3600 / 60) ++ ":" ++ pad2 (sod % 60)

namespace Umoiq

/-- One normalized record of the JSON variant, with one field per entry of the
`computed_fields` table of `umoiq.py`, in the table's order. -/
structure URec where
  agency_id : String
  response_date : String
  response_time : String
  response_timezone : String
  stop_code : String
  stop_name : String
  route_id : String
  arrival_seconds : Int
  arrival_minutes : ℚ
  arrival_epoch : ℚ
  direction_id : String
  direction_name : String
  trip_id : String
  min_vehicle_id : String
  vehicle_id : String
  linked_vehicle_ids : String
deriving DecidableEq

/-- The `computed_fields` lambda table of `umoiq.py`, applied to one
(group, entry) pair: each field below is computed by the lambda of the same
name, in dict order, and the first `KeyError`/type error aborts the record.
`tzOff` is the process-local UTC offset used by `datetime.fromtimestamp`;
`now` is the epoch value of `datetime.now()` at normalization time. -/
def computed_fields (tzOff : Int) (now : ℚ) (preds pred : Json) :
    Except String URec := do
  let agency_id ← (← preds.getKey "agency").getKey "id" >>= Json.asStr
  let serverTs ← preds.getKey "serverTimestamp" >>= Json.asNum
  let response_date := fmtYmd (serverTs / 1000) tzOff
  let response_time := fmtHms (serverTs / 1000) tzOff
  let response_timezone := "UTC"
  let stop_code ← (← preds.getKey "stop").getKey "code" >>= Json.asStr
  let stop_name ← (← preds.getKey "stop").getKey "name" >>= Json.asStr
  let route_id ← (← preds.getKey "route").getKey "id" >>= Json.asStr
  let ts ← pred.getKey "timestamp" >>= Json.asNum
  let arrival_seconds := pyRound (ts / 1000 - now)
  let arrival_minutes ← pred.getKey "minutes" >>= Json.asNum
  let direction_id ← (← pred.getKey "direction").getKey "id" >>= Json.asStr
  let direction_name ← (← pred.getKey "direction").getKey "name" >>= Json.asStr
  let trip_id ← pred.getKey "tripId" >>= Json.asStr
  let linked ← pred.getKey "linkedVehicleIds" >>= Json.asStr
  let min_vehicle_id ← pyMinE linked
  let vehicle_id ← pred.getKey "vehicleId" >>= Json.asStr
  return { agency_id, response_date, response_time, response_timezone,
           stop_code, stop_name, route_id, arrival_seconds, arrival_minutes,
           arrival_epoch := ts, direction_id, direction_name, trip_id,
           min_vehicle_id, vehicle_id, linked_vehicle_ids := linked }

/-- Sort key of `parse_predictions`: `(route_id, direction_name, vehicle_id)`. -/
def predKey (r : URec) : String × String × String :=
  (r.route_id, r.direction_name, r.vehicle_id)

/-- Python tuple-of-strings comparison (the order `sorted` produces):
lexicographic on the triple, strings by code point. -/
def tupLe (a b : String × String × String) : Prop :=
  a.1 < b.1 ∨ (a.1 = b.1 ∧ (a.2.1 < b.2.1 ∨ (a.2.1 = b.2.1 ∧ a.2.2 ≤ b.2.2)))

/-- Executable form of `tupLe` (proved equivalent below). -/
def tupLeB (a b : String × String × String) : Bool :=
  strLtB a.1 b.1 ||
    (a.1 == b.1 && (strLtB a.2.1 b.2.1 ||
      (a.2.1 == b.2.1 && strLeB a.2.2 b.2.2)))

/-- Boolean comparison used for the stable sort in `parse_predictions`. -/
def predKeyLe (a b : URec) : Bool :=
  tupLeB (predKey a) (predKey b)

/-- The sort relation of `parse_predictions` as a proposition. -/
def predLe (a b : URec) : Prop := predKeyLe a b = true

instance : DecidableRel predLe := fun a b => by
  unfold predLe; infer_instance

/-- Python `sorted(predictions, key=...)`: a stable ascending sort by
`(route_id, direction_name, vehicle_id)` (modelled by insertion sort, which
is extensionally equal to any stable sort under the same total preorder). -/
def sortPreds (l : List URec) : List URec :=
  l.insertionSort predLe

/-- The record-accumulation loop of `parse_predictions`, before sorting:
iterate the groups of the response, and within each group its `values`
entries, building one record per entry in encounter order. -/
def parse_predictions_raw (tzOff : Int) (now : ℚ) (response_data : Json) :
    Except String (List URec) := do
  let groups ← response_data.asArr
  let nested ← groups.mapM (fun g => do
    let vs ← g.getKey "values" >>= Json.asArr
    vs.mapM (fun p => computed_fields tzOff now g p))
  return nested.flatten

/-- Embedding of `parse_predictions` of `umoiq.py`: accumulate records, then
`sorted(predictions, key=lambda pred: (route_id, direction_name, vehicle_id))`
— a stable ascending sort over the full batch. -/
def parse_predictions (tzOff : Int) (now : ℚ) (response_data : Json) :
    Except String (List URec) :=
  (parse_predictions_raw tzOff now response_data).map sortPreds

end Umoiq

/-! ### The cadence scheduler and process startup (shared by both variants) -/

/-- Python `x % y` on floats (for `y > 0`): `x - floor(x / y) * y`. -/
def qmod (x y : ℚ) : ℚ := x - ⌊x / y⌋ * y

/-- The post-cycle sleep of the polling loop:
`every_n_seconds - ((now - start_at_date).total_seconds() % every_n_seconds)`. -/
def sleepDuration (interval elapsed : ℚ) : ℚ :=
  interval - qmod elapsed interval

/-- Python `time.sleep`: raises `ValueError` on a negative argument. -/
def pySleep (secs : ℚ) : Except String Unit :=
  if secs < 0 then Except.error "ValueError: sleep length must be non-negative"
  else Except.ok ()

/-- Timezone selection at startup: the anchor's `tzinfo` when a `start_at` was
given (possibly naive, i.e. `none`), else the process-local timezone. -/
def chooseTimezone (anchorTz : Option (Option Int)) (localTz : Option Int) :
    Option Int :=
  match anchorTz with
  | none => localTz
  | some tz => tz

/-- The startup delay `(start_at_date - now).total_seconds()`, where
`start_at_date` defaults to `now` itself when no `--start-at` was given. -/
def startupDelay (start_at : Option ℚ) (now : ℚ) : ℚ :=
  (start_at.getD now) - now

/-- The startup suspension `time.sleep((start_at_date - now).total_seconds())`. -/
def startupWait (start_at : Option ℚ) (now : ℚ) : Except String Unit :=
  pySleep (startupDelay start_at now)

/-! ### Fetch responses and the error-channel diagnostic -/

/-- The structured diagnostic the non-ok branch tries to print to stderr:
`{'status_code': ..., 'url': ..., 'errorMessage': ..., 'reason': ..., 'elapsed': ...}`. -/
structure Diag where
  status_code : Int
  url : String
  errorMessage : String
  reason : String
  elapsed : ℚ
deriving DecidableEq

/-- One HTTP response of the JSON variant, as consumed by the loop body,
modelling the attributes the HTTP client's `Response` object actually
defines: `ok`, `status_code`, `url`, `reason`, `elapsed`, and the `json()`
decode (which can fail on a non-JSON body). It defines no `errorMessage`
attribute. -/
structure HttpResp where
  ok : Bool
  status_code : Int
  url : String
  reason : String
  elapsedSeconds : ℚ
  jsonBody : Except String Json

/-- The diagnostic construction of the non-ok branch (JSON variant): the
dict literal reads `resp.status_code` and `resp.url`, then
`resp.errorMessage` — an attribute `requests.Response` does not define — so
it raises `AttributeError`; no diagnostic is ever built or printed. -/
def mkDiag (r : HttpResp) : Except String Diag := do
  let errorMessage ← (Except.error "AttributeError: errorMessage" :
    Except String String)
  Except.ok { status_code := r.status_code, url := r.url, errorMessage,
              reason := r.reason, elapsed := r.elapsedSeconds }

namespace Umoiq

/-- CSV cell values: the Python record dicts are heterogeneous (strings,
ints from `round`, floats); `csv.writer` renders each on output. -/
inductive CsvVal where
  | s (v : String)
  | i (v : Int)
  | q (v : ℚ)
deriving DecidableEq

/-- The `field_order` list of `umoiq.py`: the process-wide declared schema. -/
def field_order : List String :=
  ["agency_id", "request_date", "request_time", "request_timezone",
   "response_date", "response_time", "response_timezone", "response_duration",
   "stop_code", "stop_name", "route_id",
   "arrival_seconds", "arrival_minutes", "arrival_epoch",
   "direction_id", "direction_name", "trip_id", "min_vehicle_id",
   "vehicle_id", "linked_vehicle_ids"]

/-- Python `header.replace('_', ' ')` (single-character replacement). -/
def underscoreToSpace (h : String) : String :=
  h.map (fun c => if c = '_' then ' ' else c)

/-- The CSV header row written once at startup. -/
def headerRow : List CsvVal :=
  field_order.map (fun h => CsvVal.s (underscoreToSpace h))

/-- One parsed record as the Python dict it is: bindings in the insertion
order of the `computed_fields` dict comprehension. -/
def urecAssoc (r : URec) : List (String × CsvVal) :=
  [("agency_id", CsvVal.s r.agency_id),
   ("response_date", CsvVal.s r.response_date),
   ("response_time", CsvVal.s r.response_time),
   ("response_timezone", CsvVal.s r.response_timezone),
   ("stop_code", CsvVal.s r.stop_code),
   ("stop_name", CsvVal.s r.stop_name),
   ("route_id", CsvVal.s r.route_id),
   ("arrival_seconds", CsvVal.i r.arrival_seconds),
   ("arrival_minutes", CsvVal.q r.arrival_minutes),
   ("arrival_epoch", CsvVal.q r.arrival_epoch),
   ("direction_id", CsvVal.s r.direction_id),
   ("direction_name", CsvVal.s r.direction_name),
   ("trip_id", CsvVal.s r.trip_id),
   ("min_vehicle_id", CsvVal.s r.min_vehicle_id),
   ("vehicle_id", CsvVal.s r.vehicle_id),
   ("linked_vehicle_ids", CsvVal.s r.linked_vehicle_ids)]

/-- The per-cycle request metadata merged into every record of the cycle. -/
structure CycleMeta where
  request_date : String
  request_time : String
  request_timezone : String
  response_duration : ℚ
deriving DecidableEq

/-- Python `{**prediction, **{'request_date': ..., ...}}`: the four request
keys are new, so they are appended after the existing bindings. -/
def withRequestMeta (m : CycleMeta) (d : List (String × CsvVal)) :
    List (String × CsvVal) :=
  d ++ [("request_date", CsvVal.s m.request_date),
        ("request_time", CsvVal.s m.request_time),
        ("request_timezone", CsvVal.s m.request_timezone),
        ("response_duration", CsvVal.q m.response_duration)]

/-- Python `{k: prediction[k] for k in field_order}` followed by
`writer.writerow(prediction.values())`: project the record dict onto the
declared schema, in declared order; a missing key raises `KeyError`. -/
def projectRow (d : List (String × CsvVal)) : Except String (List CsvVal) :=
  field_order.mapM (fun k =>
    match d.lookup k with
    | some v => Except.ok v
    | none => Except.error ("KeyError: " ++ k))

/-- The data rows of one cycle: one projected row per sorted record. -/
def cycleRows (m : CycleMeta) (recs : List URec) :
    Except String (List (List CsvVal)) :=
  recs.mapM (fun r => projectRow (withRequestMeta m (urecAssoc r)))

/-- One iteration of the `while True` loop of `umoiq.py`: on a non-success
status the code prints the diagnostic and skips the cycle — but building the
diagnostic raises `AttributeError` (see `mkDiag`), so this branch crashes the
run instead; otherwise decode, parse, merge request metadata and emit the
projected rows. An uncaught exception is an `Except.error`. -/
def cycle (tzOff : Int) (tzName : String) (now : ℚ) (resp : HttpResp) :
    Except String (List Diag × List (List CsvVal)) :=
  if !resp.ok then (mkDiag resp).map (fun d => ([d], []))
  else do
    let body ← resp.jsonBody
    let preds ← parse_predictions tzOff now body
    let m : CycleMeta :=
      { request_date := fmtYmd now tzOff, request_time := fmtHms now tzOff,
        request_timezone := tzName, response_duration := resp.elapsedSeconds }
    let rows ← cycleRows m preds
    return ([], rows)

/-- The polling loop over a sequence of (now, response) cycles, concatenating
the error-channel entries and the emitted data rows; there is no exception
handler, so the first uncaught error terminates the whole run. -/
def runCycles (tzOff : Int) (tzName : String) :
    List (ℚ × HttpResp) → Except String (List Diag × List (List CsvVal))
  | [] => Except.ok ([], [])
  | (now, resp) :: rest => do
    let out ← cycle tzOff tzName now resp
    let outs ← runCycles tzOff tzName rest
    return (out.1 ++ outs.1, out.2 ++ outs.2)

/-- A whole run's primary CSV output: the header row written exactly once at
startup, then every cycle's data rows. -/
def runCsv (tzOff : Int) (tzName : String) (cycles : List (ℚ × HttpResp)) :
    Except String (List (List CsvVal)) := do
  let outs ← runCycles tzOff tzName cycles
  return headerRow :: outs.2

end Umoiq

namespace Proxy

/-- The attribute bag of one `<prediction .../>` element of the XML feed. -/
structure PredAttrs where
  seconds : String
  minutes : String
  epochTime : String
  dirTag : String
  tripTag : String
  vehicle : String
  block : String
deriving DecidableEq

/-- One element of `tree.iter()`, in lexical (preorder) document order: the
three recognized kinds and everything else. -/
inductive XmlEl where
  | predictions (routeTag stopTitle : String)
  | direction (title : String)
  | prediction (attrs : PredAttrs)
  | other (tag : String)
deriving DecidableEq

/-- The mutable `prediction` dict's context portion: the keys written by
`predictions` and `direction` elements and carried across siblings. -/
structure XmlCtx where
  route_id : Option String := none
  stop_name : Option String := none
  direction_name : Option String := none
deriving DecidableEq

/-- The initial (empty) context dict. -/
def xmlCtxInit : XmlCtx := {}

/-- The per-cycle constants used when a `prediction` element is emitted. -/
structure EmitEnv where
  request_date : String
  request_time : String
  request_timezone : String
  response_date : String
  response_time : String
  response_timezone : String
  response_duration : ℚ
  stop_code : String
deriving DecidableEq

/-- One emitted record of the XML variant (the `fields` list of `proxy.py`). -/
structure XRec where
  agency_id : String
  request_date : String
  request_time : String
  request_timezone : String
  response_date : String
  response_time : String
  response_timezone : String
  response_duration : ℚ
  stop_code : String
  stop_name : String
  route_id : String
  arrival_seconds : String
  arrival_minutes : String
  arrival_epoch : String
  direction_id : String
  direction_name : String
  trip_id : String
  vehicle_id : String
  block : String
deriving DecidableEq

/-- Python `prediction[k]` on the context dict: `KeyError` when unset. -/
def ctxGet (o : Option String) (k : String) : Except String String :=
  match o with
  | some v => Except.ok v
  | none => Except.error ("KeyError: " ++ k)

/-- The `prediction` branch of the tree walk: fill the record dict from the
element's attributes and the stored context, then project it onto `fields`
(raising `KeyError` when a context key was never set). -/
def emitPrediction (env : EmitEnv) (ctx : XmlCtx) (a : PredAttrs) :
    Except String XRec := do
  let route_id ← ctxGet ctx.route_id "route_id"
  let stop_name ← ctxGet ctx.stop_name "stop_name"
  let direction_name ← ctxGet ctx.direction_name "direction_name"
  return { agency_id := "sfmta-cis",
           request_date := env.request_date,
           request_time := env.request_time,
           request_timezone := env.request_timezone,
           response_date := env.response_date,
           response_time := env.response_time,
           response_timezone := env.response_timezone,
           response_duration := env.response_duration,
           stop_code := env.stop_code,
           stop_name, route_id,
           arrival_seconds := a.seconds,
           arrival_minutes := a.minutes,
           arrival_epoch := a.epochTime,
           direction_id := a.dirTag,
           trip_id := a.tripTag,
           vehicle_id := a.vehicle,
           block := a.block,
           direction_name }

/-- The `for tag in tree.iter()` walk of `proxy.py`: `predictions` containers
set route id and stop name, `direction` elements set the direction name, and
each `prediction` element emits one record from the current context. -/
def walkXml (env : EmitEnv) : List XmlEl → XmlCtx → Except String (List XRec)
  | [], _ => Except.ok []
  | XmlEl.predictions r s :: rest, ctx =>
    walkXml env rest { ctx with route_id := some r, stop_name := some s }
  | XmlEl.direction t :: rest, ctx =>
    walkXml env rest { ctx with direction_name := some t }
  | XmlEl.prediction a :: rest, ctx => do
    let x ← emitPrediction env ctx a
    let xs ← walkXml env rest ctx
    return x :: xs
  | XmlEl.other _ :: rest, ctx => walkXml env rest ctx

/-- The context-only effect of one element on the stored state. -/
def ctxStep (ctx : XmlCtx) : XmlEl → XmlCtx
  | XmlEl.predictions r s => { ctx with route_id := some r, stop_name := some s }
  | XmlEl.direction t => { ctx with direction_name := some t }
  | _ => ctx

/-- The context after walking a list of elements. -/
def ctxAfter (ctx : XmlCtx) (xs : List XmlEl) : XmlCtx :=
  xs.foldl ctxStep ctx

/-- The direction title an element contributes, if any. -/
def dirTitleOf : XmlEl → Option String
  | XmlEl.direction t => some t
  | _ => none

/-- The (route id, stop name) pair an element contributes, if any. -/
def routeStopOf : XmlEl → Option (String × String)
  | XmlEl.predictions r s => some (r, s)
  | _ => none

/-- The title of the last `direction` element of a document fragment, in
lexical document order. -/
def lastDirTitle (xs : List XmlEl) : Option String :=
  (xs.filterMap dirTitleOf).getLast?

/-- The attributes of the last `predictions` container of a fragment. -/
def lastRouteStop (xs : List XmlEl) : Option (String × String) :=
  (xs.filterMap routeStopOf).getLast?

/-- The number of `prediction` elements (= number of emitted records). -/
def predCount (xs : List XmlEl) : Nat :=
  xs.countP (fun e => match e with | XmlEl.prediction _ => true | _ => false)

/-- One HTTP response of the XML variant. `parsedBody` is the result of
`ET.fromstring(resp.text)` — the external XML parser applied to the body —
given as the `tree.iter()` element sequence, or a parse failure.
`headerDate` is `parsedate_to_datetime(resp.headers['Date'])` as a UTC epoch. -/
structure XmlResp where
  ok : Bool
  status_code : Int
  url : String
  reason : String
  elapsedSeconds : ℚ
  parsedBody : Except String (List XmlEl)
  headerDate : ℚ

/-- The diagnostic construction of the non-ok branch (XML variant): as with
`mkDiag`, the dict literal evaluates `resp.errorMessage` — an attribute the
`Response` object does not define — so it raises `AttributeError` and no
diagnostic is ever built or printed. -/
def mkDiagX (r : XmlResp) : Except String Diag := do
  let errorMessage ← (Except.error "AttributeError: errorMessage" :
    Except String String)
  Except.ok { status_code := r.status_code, url := r.url, errorMessage,
              reason := r.reason, elapsed := r.elapsedSeconds }

/-- One iteration of the `while True` loop of `proxy.py`: a non-success
status prints the diagnostic — whose construction raises `AttributeError`
(see `mkDiagX`), crashing the cycle before the body is archived or parsed;
on a success status the body is parsed and its records emitted. -/
def cycle (tzOff : Int) (tzName : String) (stop_code : String) (now : ℚ)
    (resp : XmlResp) : Except String (List Diag × List XRec) := do
  let diags ← if !resp.ok then (mkDiagX resp).map (fun d => [d])
    else Except.ok ([] : List Diag)
  let els ← resp.parsedBody
  let env : EmitEnv :=
    { request_date := fmtYmd now tzOff, request_time := fmtHms now tzOff,
      request_timezone := tzName,
      response_date := fmtYmd resp.headerDate 0,
      response_time := fmtHms resp.headerDate 0,
      response_timezone := "UTC",
      response_duration := resp.elapsedSeconds, stop_code }
  let recs ← walkXml env els xmlCtxInit
  return (diags, recs)

end Proxy

/-! ### Concrete sample payloads (used by witnesses and counterexamples) -/

/-- The key/value pairs of one well-formed JSON prediction entry. -/
def egEntryPairs (ts mins : ℚ) (did dname trip lv vid : String) :
    List (String × Json) :=
  [("timestamp", Json.num ts),
   ("minutes", Json.num mins),
   ("direction", Json.obj [("id", Json.str did), ("name", Json.str dname)]),
   ("tripId", Json.str trip),
   ("linkedVehicleIds", Json.str lv),
   ("vehicleId", Json.str vid)]

/-- One well-formed JSON prediction entry. -/
def egEntry (ts mins : ℚ) (did dname trip lv vid : String) : Json :=
  Json.obj (egEntryPairs ts mins did dname trip lv vid)

/-- The response-level metadata pairs of one well-formed prediction group. -/
def egGroupPairs (aid : String) (sts : ℚ) (scode sname rid : String) :
    List (String × Json) :=
  [("agency", Json.obj [("id", Json.str aid)]),
   ("serverTimestamp", Json.num sts),
   ("stop", Json.obj [("code", Json.str scode), ("name", Json.str sname)]),
   ("route", Json.obj [("id", Json.str rid)])]

/-- One well-formed prediction group, without its `values` entries. -/
def egGroup (aid : String) (sts : ℚ) (scode sname rid : String) : Json :=
  Json.obj (egGroupPairs aid sts scode sname rid)

/-- A well-formed JSON response: one group, two vehicle entries whose ids
arrive out of sorted order. -/
def goodBody : Json :=
  Json.arr [Json.obj
    (egGroupPairs "sf-muni" 1000 "15419" "Judah/9th" "N" ++
      [("values", Json.arr
        [egEntry 2000 3 "d1" "Outbound" "t1" "9,10,2" "2002",
         egEntry 2600 5 "d1" "Outbound" "t2" "2,3" "2001"])])]

/-- A successful (200) response carrying `goodBody`. -/
def jsonRespGood : HttpResp :=
  { ok := true, status_code := 200,
    url := "https://webservices.umoiq.com/api/pub/v1",
    reason := "OK", elapsedSeconds := 1 / 4, jsonBody := Except.ok goodBody }

/-- A successful (200) response whose JSON body is a one-group array where
the group lacks the expected `values` key. -/
def jsonRespBadBody : HttpResp :=
  { ok := true, status_code := 200,
    url := "https://webservices.umoiq.com/api/pub/v1",
    reason := "OK", elapsedSeconds := 1 / 4,
    jsonBody := Except.ok (Json.arr [Json.obj []]) }

/-- A failed (503) response of the JSON variant. -/
def jsonRespFail : HttpResp :=
  { ok := false, status_code := 503,
    url := "https://webservices.umoiq.com/api/pub/v1",
    reason := "Service Unavailable",
    elapsedSeconds := 2, jsonBody := Except.error "JSONDecodeError" }

/-- A sample `<prediction .../>` attribute bag. -/
def egAttrs1 : Proxy.PredAttrs :=
  { seconds := "180", minutes := "3", epochTime := "2000",
    dirTag := "N___O_F00", tripTag := "t1", vehicle := "2001", block := "9741" }

/-- A second sample attribute bag. -/
def egAttrs2 : Proxy.PredAttrs :=
  { seconds := "420", minutes := "7", epochTime := "2300",
    dirTag := "N___O_F00", tripTag := "t2", vehicle := "2002", block := "9742" }

/-- A third sample attribute bag. -/
def egAttrs3 : Proxy.PredAttrs :=
  { seconds := "900", minutes := "15", epochTime := "2600",
    dirTag := "N___O_F00", tripTag := "t3", vehicle := "2003", block := "9743" }

/-- The document prefix for the XML context claim: root element, a
`predictions` container, then a `direction` element. -/
def egPre : List Proxy.XmlEl :=
  [Proxy.XmlEl.other "body",
   Proxy.XmlEl.predictions "N" "Judah/9th",
   Proxy.XmlEl.direction "Outbound"]

/-- Two further `prediction` siblings following the first one. -/
def egRest : List Proxy.XmlEl :=
  [Proxy.XmlEl.prediction egAttrs2, Proxy.XmlEl.prediction egAttrs3]

/-- Cycle-constant emission data for the XML examples. -/
def egEnv : Proxy.EmitEnv :=
  { request_date := "20220925", request_time := "15:17:34",
    request_timezone := "PDT", response_date := "20220925",
    response_time := "22:17:34", response_timezone := "UTC",
    response_duration := 1 / 2, stop_code := "15419" }

/-- A failed (500) XML-variant response whose error body is nevertheless a
well-formed predictions document containing one prediction. -/
def xmlRespBad : Proxy.XmlResp :=
  { ok := false, status_code := 500, url := "https://proxy/publicXMLFeed",
    reason := "Internal Server Error",
    elapsedSeconds := 1 / 2,
    parsedBody := Except.ok
      [Proxy.XmlEl.other "body",
       Proxy.XmlEl.predictions "N" "Judah/9th",
       Proxy.XmlEl.direction "Outbound",
       Proxy.XmlEl.prediction egAttrs1],
    headerDate := 3600 }

/-! ### Concrete outputs of the embedded code on the samples -/

/-- The records `parse_predictions` produces on `goodBody` (post-sort). -/
def goodParsed : List Umoiq.URec :=
  (Umoiq.parse_predictions 0 0 goodBody).toOption.getD []

/-- The records before sorting, in encounter order. -/
def goodRawParsed : List Umoiq.URec :=
  (Umoiq.parse_predictions_raw 0 0 goodBody).toOption.getD []

/-- The CSV output of a one-cycle run on `jsonRespGood`. -/
def goodCsv : List (List Umoiq.CsvVal) :=
  (Umoiq.runCsv 0 "UTC" [(0, jsonRespGood)]).toOption.getD []

/-- The records the XML walk emits on the sample document
`egPre ++ prediction egAttrs1 :: egRest`. -/
def egRecs : List Proxy.XRec :=
  (Proxy.walkXml egEnv (egPre ++ Proxy.XmlEl.prediction egAttrs1 :: egRest)
    Proxy.xmlCtxInit).toOption.getD []

/-! ## Helper lemmas -/

theorem except_ok_bind {ε α β : Type} (b : α) (g : α → Except ε β) :
    (Except.ok b >>= g) = g b := rfl

theorem except_error_bind {ε α β : Type} (e : ε) (g : α → Except ε β) :
    ((Except.error e : Except ε α) >>= g) = Except.error e := rfl

theorem except_pure_eq {ε α : Type} (a : α) : (pure a : Except ε α) = Except.ok a := rfl

theorem exceptMapM_cons_ok {ε α β : Type} {f : α → Except ε β} {a : α} {l : List α}
    {out : List β} (h : (a :: l).mapM f = Except.ok out) :
    ∃ b bs, f a = Except.ok b ∧ l.mapM f = Except.ok bs ∧ out = b :: bs := by
  rw [List.mapM_cons] at h
  cases hfa : f a with
  | error e => rw [hfa, except_error_bind] at h; cases h
  | ok b =>
    rw [hfa, except_ok_bind] at h
    cases hl : l.mapM f with
    | error e => rw [hl, except_error_bind] at h; cases h
    | ok bs =>
      rw [hl, except_ok_bind, except_pure_eq] at h
      cases h
      exact ⟨b, bs, rfl, rfl, rfl⟩

theorem exceptMapM_length {ε α β : Type} {f : α → Except ε β} :
    ∀ {l : List α} {out : List β}, l.mapM f = Except.ok out → out.length = l.length := by
  intro l
  induction l with
  | nil =>
    intro out h
    rw [List.mapM_nil, except_pure_eq] at h
    cases h
    rfl
  | cons a l ih =>
    intro out h
    obtain ⟨b, bs, _, hl, rfl⟩ := exceptMapM_cons_ok h
    simp [ih hl]

theorem exceptMapM_mem {ε α β : Type} {f : α → Except ε β} :
    ∀ {l : List α} {out : List β}, l.mapM f = Except.ok out →
      ∀ y ∈ out, ∃ a ∈ l, f a = Except.ok y := by
  intro l
  induction l with
  | nil =>
    intro out h
    rw [List.mapM_nil, except_pure_eq] at h
    cases h
    intro y hy
    cases hy
  | cons a l ih =>
    intro out h
    obtain ⟨b, bs, hfa, hl, rfl⟩ := exceptMapM_cons_ok h
    intro y hy
    rcases List.mem_cons.mp hy with rfl | hy
    · exact ⟨a, List.mem_cons_self a l, hfa⟩
    · obtain ⟨x, hx, hfx⟩ := ih hl y hy
      exact ⟨x, List.mem_cons_of_mem a hx, hfx⟩

theorem lookup_append_left {β : Type} {d : List (String × β)} {k : String} {v : β}
    (h : d.lookup k = some v) (l : List (String × β)) :
    (d ++ l).lookup k = some v := by
  induction d with
  | nil => cases h
  | cons p d ih =>
    rw [List.cons_append]
    cases p with
    | mk k' b =>
      by_cases hk : k = k'
      · subst hk
        simp [List.lookup] at h ⊢
        exact h
      · simp [List.lookup, beq_false_of_ne hk] at h ⊢
        exact ih h


/-! ### Bridging the executable string comparison to the canonical order -/

theorem charListLe_iff :
    ∀ as bs : List Char, charListLe as bs = true ↔ (List.Lex (· < ·) as bs ∨ as = bs) := by
  intro as
  induction as with
  | nil =>
    intro bs
    cases bs with
    | nil =>
      constructor
      · intro _; exact Or.inr rfl
      · intro _; rfl
    | cons b bs =>
      constructor
      · intro _; exact Or.inl List.Lex.nil
      · intro _; rfl
  | cons a as ih =>
    intro bs
    cases bs with
    | nil =>
      constructor
      · intro h; cases h
      · intro h
        rcases h with h | h
        · exact (List.Lex.not_nil_right _ _ h).elim
        · cases h
    | cons b bs =>
      by_cases hab : a < b
      · constructor
        · intro _; exact Or.inl (List.Lex.rel hab)
        · intro _
          unfold charListLe
          rw [if_pos hab]
      · by_cases hba : b < a
        · have hne : a ≠ b := fun h => absurd (h ▸ hba) (lt_irrefl a)
          constructor
          · intro h
            unfold charListLe at h
            rw [if_neg hab, if_pos hba] at h
            cases h
          · intro h
            rcases h with h | h
            · cases h with
              | rel h2 => exact absurd h2 hab
              | cons h2 => exact absurd rfl hne
            · cases h
              exact absurd rfl hne
        · have heq : a = b := le_antisymm (le_of_not_lt hba) (le_of_not_lt hab)
          subst heq
          have hstep : charListLe (a :: as) (a :: bs) = charListLe as bs := by
            simp only [charListLe, if_neg hab, if_neg hba]
          rw [hstep, ih bs]
          constructor
          · intro h
            rcases h with h | h
            · exact Or.inl (List.Lex.cons h)
            · cases h; exact Or.inr rfl
          · intro h
            rcases h with h | h
            · cases h with
              | rel h2 => exact absurd h2 (lt_irrefl a)
              | cons h2 => exact Or.inl h2
            · cases h; exact Or.inr rfl

theorem strLeB_iff (a b : String) : strLeB a b = true ↔ a ≤ b := by
  rw [String.le_iff_toList_le]
  have h1 : (a.toList ≤ b.toList) ↔ (a.toList < b.toList ∨ a.toList = b.toList) :=
    le_iff_lt_or_eq
  rw [h1]
  exact charListLe_iff a.data b.data

theorem strLtB_iff (a b : String) : strLtB a b = true ↔ a < b := by
  rw [lt_iff_le_and_ne]
  unfold strLtB
  rw [Bool.and_eq_true, Bool.not_eq_true', beq_eq_false_iff_ne, strLeB_iff]

/-! ### C3/C10 groundwork: `pySplit` and `pyMinStr` -/

theorem pySplitAux_ne_nil (sep : Char) :
    ∀ cs acc, pySplitAux sep cs acc ≠ [] := by
  intro cs
  induction cs with
  | nil => intro acc h; cases h
  | cons c cs ih =>
    intro acc
    unfold pySplitAux
    by_cases hc : c = sep
    · simp [hc]
    · simp [hc]
      exact ih (c :: acc)

theorem pySplit_ne_nil (sep : Char) (s : String) : pySplit sep s ≠ [] := by
  unfold pySplit
  intro h
  rw [List.map_eq_nil_iff] at h
  exact pySplitAux_ne_nil sep s.data [] h

theorem pyMinStr_fold_spec :
    ∀ (xs : List String) (x v : String),
      xs.foldl (fun m y => if strLeB m y then m else y) x = v →
      (v = x ∨ v ∈ xs) ∧ v ≤ x ∧ ∀ y ∈ xs, v ≤ y := by
  intro xs
  induction xs with
  | nil =>
    intro x v h
    cases h
    exact ⟨Or.inl rfl, le_refl _, fun y hy => absurd hy (List.not_mem_nil _)⟩
  | cons hd tl ih =>
    intro x v h
    rw [List.foldl_cons] at h
    by_cases hxy : strLeB x hd = true
    · rw [if_pos hxy] at h
      obtain ⟨hmem, hle, hall⟩ := ih x v h
      have hxhd : x ≤ hd := (strLeB_iff x hd).mp hxy
      refine ⟨?_, hle, ?_⟩
      · rcases hmem with rfl | hmem
        · exact Or.inl rfl
        · exact Or.inr (List.mem_cons_of_mem hd hmem)
      · intro z hz
        rcases List.mem_cons.mp hz with rfl | hz
        · exact le_trans hle hxhd
        · exact hall z hz
    · rw [if_neg hxy] at h
      obtain ⟨hmem, hle, hall⟩ := ih hd v h
      have hhdx : hd ≤ x := by
        by_contra hcon
        exact hxy ((strLeB_iff x hd).mpr (le_of_not_le hcon))
      refine ⟨?_, le_trans hle hhdx, ?_⟩
      · rcases hmem with rfl | hmem
        · exact Or.inr (List.mem_cons_self v tl)
        · exact Or.inr (List.mem_cons_of_mem hd hmem)
      · intro z hz
        rcases List.mem_cons.mp hz with rfl | hz
        · exact hle
        · exact hall z hz

/-- C3: for every comma-separated linked-vehicle-ids string, `min_vehicle_id`
is the lexicographic (string, code-point) minimum of the comma-split pieces —
a member of the split that is `≤` every piece — and on the input "9,10,2" it
is "10" (the string minimum), not "2" (the numeric minimum). -/
theorem min_vehicle_id_lexicographic :
    (∀ s v, minVehicleId s = some v →
      v ∈ pySplit ',' s ∧ ∀ x ∈ pySplit ',' s, v ≤ x) ∧
    minVehicleId "9,10,2" = some "10" ∧ some "10" ≠ some "2" := by
  refine ⟨?_, by with_unfolding_all rfl, by simp⟩
  intro s v h
  unfold minVehicleId at h
  cases hsplit : pySplit ',' s with
  | nil => rw [hsplit] at h; cases h
  | cons x xs =>
    rw [hsplit] at h
    unfold pyMinStr at h
    obtain ⟨hmem, hle, hall⟩ := pyMinStr_fold_spec xs x v (Option.some.inj h)
    constructor
    · rcases hmem with rfl | hmem
      · exact List.mem_cons_self v xs
      · exact List.mem_cons_of_mem x hmem
    · intro z hz
      rcases List.mem_cons.mp hz with rfl | hz
      · exact hle
      · exact hall z hz

/-- Witness for C3 at the pinned input "9,10,2". -/
theorem min_vehicle_id_lexicographic_witness :
    minVehicleId "9,10,2" = some "10" ∧
    ("10" ∈ pySplit ',' "9,10,2" ∧ ∀ x ∈ pySplit ',' "9,10,2", "10" ≤ x) :=
  ⟨by with_unfolding_all rfl,
   min_vehicle_id_lexicographic.1 "9,10,2" "10" (by with_unfolding_all rfl)⟩

/-- C10: the `min_vehicle_id` computation is total: splitting any string on
commas yields a non-empty list, so Python's `min` never raises; on the empty
string the result is the empty string. -/
theorem min_vehicle_id_total :
    (∀ s : String, pySplit ',' s ≠ [] ∧ ∃ v, minVehicleId s = some v) ∧
    minVehicleId "" = some "" := by
  constructor
  · intro s
    refine ⟨pySplit_ne_nil ',' s, ?_⟩
    unfold minVehicleId
    cases hsplit : pySplit ',' s with
    | nil => exact absurd hsplit (pySplit_ne_nil ',' s)
    | cons x xs => exact ⟨_, rfl⟩
  · with_unfolding_all rfl

/-! ### C4: the cadence scheduler arithmetic -/

/-- C4: for every interval `I > 0` and nonnegative elapsed time, the
post-cycle sleep equals `I - (elapsed mod I)`, is never negative, and lands
the next cycle start exactly on `anchor + k*I` for an integer `k` (no drift
accumulation), regardless of how long the cycle's processing took. -/
theorem cadence_sleep_alignment (I elapsed : ℚ) (hI : 0 < I) (hE : 0 ≤ elapsed) :
    sleepDuration I elapsed = I - qmod elapsed I ∧
    0 ≤ sleepDuration I elapsed ∧
    ∃ k : ℤ, elapsed + sleepDuration I elapsed = k * I := by
  refine ⟨rfl, ?_, ⟨⌊elapsed / I⌋ + 1, ?_⟩⟩
  · unfold sleepDuration qmod
    have h := Int.sub_floor_div_mul_lt elapsed hI
    linarith
  · unfold sleepDuration qmod
    push_cast
    ring

/-- Witness for C4 at interval 60 and elapsed 130 (sleep is 50, landing on
the tick at 180 = 3·60). -/
theorem cadence_sleep_alignment_witness :
    sleepDuration 60 130 = 60 - qmod 130 60 ∧
    0 ≤ sleepDuration 60 130 ∧
    ∃ k : ℤ, (130 : ℚ) + sleepDuration 60 130 = k * 60 :=
  cadence_sleep_alignment 60 130 (by with_unfolding_all decide)
    (by with_unfolding_all decide)

/-! ### C9: process startup -/

/-- C9 counterexample: with a start-at anchor 10 seconds in the past the
startup delay is negative (≤ 0), yet the startup suspension raises Python's
`ValueError` (`time.sleep` rejects negative durations) instead of proceeding
immediately as claimed. -/
theorem startup_past_anchor_counterexample :
    startupDelay (some 0) 10 < 0 ∧
    startupWait (some 0) 10 =
      Except.error "ValueError: sleep length must be non-negative" := by
  constructor
  · with_unfolding_all decide
  · with_unfolding_all rfl

/-- C9 (amended): the scheduler computes `delay = start_at - now` in the
chosen timezone (the anchor's timezone when an anchor was given, else the
process-local timezone); when `start_at` is absent the delay is exactly zero
and the loop starts immediately; when `delay ≥ 0` the startup sleep succeeds;
but when `start_at` lies in the past (`delay < 0`), `time.sleep` raises
`ValueError` and the loop is never entered. -/
theorem startup_delay_amended (sa : Option ℚ) (now : ℚ)
    (tz localTz : Option Int) :
    startupDelay sa now = sa.getD now - now ∧
    chooseTimezone none localTz = localTz ∧
    chooseTimezone (some tz) localTz = tz ∧
    (sa = none → startupDelay sa now = 0 ∧ startupWait sa now = Except.ok ()) ∧
    (0 ≤ startupDelay sa now → startupWait sa now = Except.ok ()) ∧
    (startupDelay sa now < 0 →
      startupWait sa now =
        Except.error "ValueError: sleep length must be non-negative") := by
  refine ⟨rfl, rfl, rfl, ?_, ?_, ?_⟩
  · rintro rfl
    have hz : startupDelay none now = 0 := by
      unfold startupDelay
      simp
    refine ⟨hz, ?_⟩
    unfold startupWait pySleep
    rw [hz, if_neg (lt_irrefl 0)]
  · intro h
    unfold startupWait pySleep
    rw [if_neg (not_lt.mpr h)]
  · intro h
    unfold startupWait pySleep
    rw [if_pos h]

/-- Witness for C9 (amended) at a future anchor: start_at = 5, now = 2, so
the delay is nonnegative and the startup sleep succeeds. -/
theorem startup_delay_amended_witness :
    startupWait (some 5) 2 = Except.ok () :=
  (startup_delay_amended (some 5) 2 (some 0) none).2.2.2.2.1
    (by with_unfolding_all decide)

/-! ### C8: `arrival_seconds` is recomputed at normalization time -/

theorem pyRound_abs_le (q : ℚ) : |(pyRound q : ℚ) - q| ≤ 1 / 2 := by
  have hfl : (⌊q⌋ : ℚ) ≤ q := Int.floor_le q
  have hfu : q < ⌊q⌋ + 1 := Int.lt_floor_add_one q
  unfold pyRound
  split_ifs with h1 h2 h3 <;>
    (rw [abs_le]; constructor <;> push_cast <;> linarith)

/-- C8: on any well-formed JSON prediction entry, the normalized record's
`arrival_seconds` is `round(entry_epoch/1000 - now)` — the (half-to-even)
rounded difference between the entry's arrival epoch and the wall-clock `now`
captured at normalization time, within 1/2 second of the true difference —
and it is insensitive to any `seconds` value the server payload might carry
(the computation never reads such a key). -/
theorem arrival_seconds_recomputed (tzOff : Int) (now sts ts mins : ℚ)
    (aid scode sname rid did dname trip lv vid mv : String)
    (hmv : minVehicleId lv = some mv) :
    Umoiq.computed_fields tzOff now (egGroup aid sts scode sname rid)
        (egEntry ts mins did dname trip lv vid) =
      Except.ok
        { agency_id := aid, response_date := fmtYmd (sts / 1000) tzOff,
          response_time := fmtHms (sts / 1000) tzOff,
          response_timezone := "UTC", stop_code := scode, stop_name := sname,
          route_id := rid, arrival_seconds := pyRound (ts / 1000 - now),
          arrival_minutes := mins, arrival_epoch := ts, direction_id := did,
          direction_name := dname, trip_id := trip, min_vehicle_id := mv,
          vehicle_id := vid, linked_vehicle_ids := lv } ∧
    |(pyRound (ts / 1000 - now) : ℚ) - (ts / 1000 - now)| ≤ 1 / 2 ∧
    (∀ sv : Json,
      Umoiq.computed_fields tzOff now (egGroup aid sts scode sname rid)
        (Json.obj (("seconds", sv) :: egEntryPairs ts mins did dname trip lv vid)) =
      Umoiq.computed_fields tzOff now (egGroup aid sts scode sname rid)
        (egEntry ts mins did dname trip lv vid)) := by
  have step : Umoiq.computed_fields tzOff now (egGroup aid sts scode sname rid)
      (egEntry ts mins did dname trip lv vid) =
      pyMinE lv >>=
        (fun m => Except.ok
          { agency_id := aid, response_date := fmtYmd (sts / 1000) tzOff,
            response_time := fmtHms (sts / 1000) tzOff,
            response_timezone := "UTC", stop_code := scode, stop_name := sname,
            route_id := rid, arrival_seconds := pyRound (ts / 1000 - now),
            arrival_minutes := mins, arrival_epoch := ts, direction_id := did,
            direction_name := dname, trip_id := trip, min_vehicle_id := m,
            vehicle_id := vid, linked_vehicle_ids := lv }) := by
    with_unfolding_all rfl
  have hE : pyMinE lv = Except.ok mv := by
    unfold pyMinE
    rw [hmv]
  refine ⟨?_, pyRound_abs_le _, ?_⟩
  · rw [step, hE, except_ok_bind]
  · intro sv
    with_unfolding_all rfl

/-- Witness for C8 at a concrete entry: epoch 2000 ms, now 0, so
`arrival_seconds = round(2 - 0) = 2`. -/
theorem arrival_seconds_recomputed_witness :
    Umoiq.computed_fields 0 0 (egGroup "sf-muni" 1000 "15419" "J" "N")
        (egEntry 2000 3 "d1" "Outbound" "t1" "9,10,2" "2002") =
      Except.ok
        { agency_id := "sf-muni", response_date := fmtYmd ((1000 : ℚ) / 1000) 0,
          response_time := fmtHms ((1000 : ℚ) / 1000) 0,
          response_timezone := "UTC", stop_code := "15419", stop_name := "J",
          route_id := "N", arrival_seconds := pyRound ((2000 : ℚ) / 1000 - 0),
          arrival_minutes := 3, arrival_epoch := 2000, direction_id := "d1",
          direction_name := "Outbound", trip_id := "t1",
          min_vehicle_id := "10", vehicle_id := "2002",
          linked_vehicle_ids := "9,10,2" } ∧
    |(pyRound ((2000 : ℚ) / 1000 - 0) : ℚ) - ((2000 : ℚ) / 1000 - 0)| ≤ 1 / 2 ∧
    (∀ sv : Json,
      Umoiq.computed_fields 0 0 (egGroup "sf-muni" 1000 "15419" "J" "N")
        (Json.obj (("seconds", sv) :: egEntryPairs 2000 3 "d1" "Outbound" "t1" "9,10,2" "2002")) =
      Umoiq.computed_fields 0 0 (egGroup "sf-muni" 1000 "15419" "J" "N")
        (egEntry 2000 3 "d1" "Outbound" "t1" "9,10,2" "2002")) :=
  arrival_seconds_recomputed 0 0 1000 2000 3 "sf-muni" "15419" "J" "N" "d1"
    "Outbound" "t1" "9,10,2" "2002" "10" (by with_unfolding_all rfl)

/-! ### C2: the sort of `parse_predictions` -/

namespace Umoiq

theorem tupLeB_iff (a b : String × String × String) :
    tupLeB a b = true ↔ tupLe a b := by
  unfold tupLeB tupLe
  rw [Bool.or_eq_true, Bool.and_eq_true, Bool.or_eq_true, Bool.and_eq_true,
    strLtB_iff, strLtB_iff, strLeB_iff, beq_iff_eq, beq_iff_eq]

theorem tupLe_refl (a : String × String × String) : tupLe a a :=
  Or.inr ⟨rfl, Or.inr ⟨rfl, le_refl _⟩⟩

theorem tupLe_total (a b : String × String × String) : tupLe a b ∨ tupLe b a := by
  rcases lt_trichotomy a.1 b.1 with h | h | h
  · exact Or.inl (Or.inl h)
  · rcases lt_trichotomy a.2.1 b.2.1 with h2 | h2 | h2
    · exact Or.inl (Or.inr ⟨h, Or.inl h2⟩)
    · rcases le_total a.2.2 b.2.2 with h3 | h3
      · exact Or.inl (Or.inr ⟨h, Or.inr ⟨h2, h3⟩⟩)
      · exact Or.inr (Or.inr ⟨h.symm, Or.inr ⟨h2.symm, h3⟩⟩)
    · exact Or.inr (Or.inr ⟨h.symm, Or.inl h2⟩)
  · exact Or.inr (Or.inl h)

theorem tupLe_trans (a b c : String × String × String)
    (hab : tupLe a b) (hbc : tupLe b c) : tupLe a c := by
  rcases hab with h1 | ⟨e1, h1⟩
  · rcases hbc with h2 | ⟨e2, _⟩
    · exact Or.inl (h1.trans h2)
    · exact Or.inl (by rw [← e2]; exact h1)
  · rcases hbc with h2 | ⟨e2, h2⟩
    · exact Or.inl (by rw [e1]; exact h2)
    · refine Or.inr ⟨e1.trans e2, ?_⟩
      rcases h1 with h1 | ⟨f1, h1⟩
      · rcases h2 with h2 | ⟨f2, _⟩
        · exact Or.inl (h1.trans h2)
        · exact Or.inl (by rw [← f2]; exact h1)
      · rcases h2 with h2 | ⟨f2, h2⟩
        · exact Or.inl (by rw [f1]; exact h2)
        · exact Or.inr ⟨f1.trans f2, h1.trans h2⟩

theorem predLe_total (a b : URec) : predLe a b ∨ predLe b a := by
  unfold predLe predKeyLe
  rcases tupLe_total (predKey a) (predKey b) with h | h
  · exact Or.inl ((tupLeB_iff _ _).mpr h)
  · exact Or.inr ((tupLeB_iff _ _).mpr h)

theorem predLe_trans (a b c : URec) (hab : predLe a b) (hbc : predLe b c) :
    predLe a c := by
  unfold predLe predKeyLe at hab hbc ⊢
  exact (tupLeB_iff _ _).mpr
    (tupLe_trans _ _ _ ((tupLeB_iff _ _).mp hab) ((tupLeB_iff _ _).mp hbc))

theorem predLe_of_key_eq {a b : URec} (h : predKey a = predKey b) : predLe a b := by
  unfold predLe predKeyLe
  rw [h]
  exact (tupLeB_iff _ _).mpr (tupLe_refl _)

/-- C2: the batch that one cycle's `parse_predictions` returns is the stable
ascending sort of the records in encounter order: it is pairwise
non-decreasing under the string-comparison key (route id, direction name,
vehicle id) across the whole batch (not per group), it is a permutation of
the raw batch, and records with equal keys keep their encounter order (the
sublist at any fixed key is unchanged). -/
theorem json_sort_invariant (tzOff : Int) (now : ℚ) (rd : Json)
    (recs : List URec) (h : parse_predictions tzOff now rd = Except.ok recs) :
    ∃ raw, parse_predictions_raw tzOff now rd = Except.ok raw ∧
      recs = sortPreds raw ∧
      recs.Pairwise predLe ∧
      recs.Perm raw ∧
      ∀ k, recs.filter (fun r => decide (predKey r = k)) =
        raw.filter (fun r => decide (predKey r = k)) := by
  unfold parse_predictions at h
  cases hraw : parse_predictions_raw tzOff now rd with
  | error e => rw [hraw] at h; cases h
  | ok raw =>
    rw [hraw] at h
    have hrecs : recs = sortPreds raw := (Except.ok.inj h).symm
    subst hrecs
    haveI : IsTotal URec predLe := ⟨predLe_total⟩
    haveI : IsTrans URec predLe := ⟨predLe_trans⟩
    refine ⟨raw, rfl, rfl, List.sorted_insertionSort predLe raw,
      List.perm_insertionSort predLe raw, ?_⟩
    intro k
    have hkeys : ∀ a ∈ raw.filter (fun r => decide (predKey r = k)),
        predKey a = k := by
      intro a ha
      exact of_decide_eq_true (List.mem_filter.mp ha).2
    have hpair : (raw.filter (fun r => decide (predKey r = k))).Pairwise predLe := by
      apply List.pairwise_of_forall_mem_list
      intro a ha b hb
      exact predLe_of_key_eq ((hkeys a ha).trans (hkeys b hb).symm)
    have hsub : List.Sublist (raw.filter (fun r => decide (predKey r = k)))
        (sortPreds raw) :=
      List.sublist_insertionSort hpair (List.filter_sublist raw)
    have hfix : (raw.filter (fun r => decide (predKey r = k))).filter
        (fun r => decide (predKey r = k)) =
        raw.filter (fun r => decide (predKey r = k)) :=
      List.filter_eq_self.mpr (fun a ha => (List.mem_filter.mp ha).2)
    have hsubf : List.Sublist (raw.filter (fun r => decide (predKey r = k)))
        ((sortPreds raw).filter (fun r => decide (predKey r = k))) := by
      have := hsub.filter (fun r => decide (predKey r = k))
      rw [hfix] at this
      exact this
    have hperm : List.Perm ((sortPreds raw).filter (fun r => decide (predKey r = k)))
        (raw.filter (fun r => decide (predKey r = k))) :=
      (List.perm_insertionSort predLe raw).filter _
    exact (hsubf.eq_of_length hperm.length_eq.symm).symm

end Umoiq

/-- Witness for C2 on `goodBody`, whose two vehicle entries arrive out of
sorted order. -/
theorem json_sort_invariant_witness :
    ∃ raw, Umoiq.parse_predictions_raw 0 0 goodBody = Except.ok raw ∧
      goodParsed = Umoiq.sortPreds raw ∧
      goodParsed.Pairwise Umoiq.predLe ∧
      goodParsed.Perm raw ∧
      ∀ k, goodParsed.filter (fun r => decide (Umoiq.predKey r = k)) =
        raw.filter (fun r => decide (Umoiq.predKey r = k)) :=
  Umoiq.json_sort_invariant 0 0 goodBody goodParsed (by with_unfolding_all rfl)

/-! ### C1: XML context propagation -/

namespace Proxy

theorem emitPrediction_ok {env : EmitEnv} {ctx : XmlCtx} {a : PredAttrs}
    {x : XRec} (h : emitPrediction env ctx a = Except.ok x) :
    ctx.route_id = some x.route_id ∧ ctx.stop_name = some x.stop_name ∧
    ctx.direction_name = some x.direction_name := by
  unfold emitPrediction at h
  cases hr : ctx.route_id with
  | none =>
    rw [hr] at h
    simp only [ctxGet, except_ok_bind, except_error_bind] at h
    cases h
  | some r =>
    rw [hr] at h
    cases hs : ctx.stop_name with
    | none =>
      rw [hs] at h
      simp only [ctxGet, except_ok_bind, except_error_bind] at h
      cases h
    | some s =>
      rw [hs] at h
      cases hd : ctx.direction_name with
      | none =>
        rw [hd] at h
        simp only [ctxGet, except_ok_bind, except_error_bind] at h
        cases h
      | some d =>
        rw [hd] at h
        simp only [ctxGet, except_ok_bind] at h
        injection h with h
        subst h
        exact ⟨rfl, rfl, rfl⟩

theorem walkXml_split (env : EmitEnv) :
    ∀ (pre : List XmlEl) (a : PredAttrs) (rest : List XmlEl) (ctx : XmlCtx)
      (recs : List XRec),
      walkXml env (pre ++ XmlEl.prediction a :: rest) ctx = Except.ok recs →
      ∃ rs1 x rs2, recs = rs1 ++ x :: rs2 ∧ rs1.length = predCount pre ∧
        emitPrediction env (ctxAfter ctx pre) a = Except.ok x := by
  intro pre
  induction pre with
  | nil =>
    intro a rest ctx recs h
    rw [List.nil_append] at h
    simp only [walkXml] at h
    cases hemit : emitPrediction env ctx a with
    | error er => rw [hemit, except_error_bind] at h; cases h
    | ok x =>
      rw [hemit, except_ok_bind] at h
      cases hw : walkXml env rest ctx with
      | error er => rw [hw, except_error_bind] at h; cases h
      | ok xs =>
        rw [hw, except_ok_bind] at h
        injection h with h
        subst h
        exact ⟨[], x, xs, rfl, rfl, hemit⟩
  | cons e pre ih =>
    intro a rest ctx recs h
    rw [List.cons_append] at h
    cases e with
    | predictions r s =>
      simp only [walkXml] at h
      obtain ⟨rs1, x, rs2, hrecs, hlen, hemit⟩ := ih a rest _ recs h
      refine ⟨rs1, x, rs2, hrecs, ?_, ?_⟩
      · simpa [predCount, List.countP_cons] using hlen
      · simpa [ctxAfter, ctxStep] using hemit
    | direction t =>
      simp only [walkXml] at h
      obtain ⟨rs1, x, rs2, hrecs, hlen, hemit⟩ := ih a rest _ recs h
      refine ⟨rs1, x, rs2, hrecs, ?_, ?_⟩
      · simpa [predCount, List.countP_cons] using hlen
      · simpa [ctxAfter, ctxStep] using hemit
    | other tag =>
      simp only [walkXml] at h
      obtain ⟨rs1, x, rs2, hrecs, hlen, hemit⟩ := ih a rest _ recs h
      refine ⟨rs1, x, rs2, hrecs, ?_, ?_⟩
      · simpa [predCount, List.countP_cons] using hlen
      · simpa [ctxAfter, ctxStep] using hemit
    | prediction b =>
      simp only [walkXml] at h
      cases hemit : emitPrediction env ctx b with
      | error er => rw [hemit, except_error_bind] at h; cases h
      | ok y =>
        rw [hemit, except_ok_bind] at h
        cases hw : walkXml env (pre ++ XmlEl.prediction a :: rest) ctx with
        | error er => rw [hw, except_error_bind] at h; cases h
        | ok ys =>
          rw [hw, except_ok_bind] at h
          injection h with h
          subst h
          obtain ⟨rs1, x, rs2, hrecs, hlen, hemit2⟩ := ih a rest ctx ys hw
          refine ⟨y :: rs1, x, rs2, by rw [hrecs, List.cons_append], ?_, ?_⟩
          · simp [predCount, List.countP_cons, hlen]
          · simpa [ctxAfter, ctxStep] using hemit2

theorem ctxAfter_direction_name (ctx : XmlCtx) :
    ∀ xs, (ctxAfter ctx xs).direction_name =
      (lastDirTitle xs).or ctx.direction_name := by
  intro xs
  induction xs generalizing ctx with
  | nil => simp [ctxAfter, lastDirTitle]
  | cons e xs ih =>
    have hstep : ctxAfter ctx (e :: xs) = ctxAfter (ctxStep ctx e) xs := rfl
    rw [hstep, ih]
    cases e with
    | predictions r s =>
      have h1 : lastDirTitle (XmlEl.predictions r s :: xs) = lastDirTitle xs := by
        simp [lastDirTitle, List.filterMap_cons, dirTitleOf]
      rw [h1]
      rfl
    | direction t =>
      have h1 : lastDirTitle (XmlEl.direction t :: xs) =
          (lastDirTitle xs).or (some t) := by
        unfold lastDirTitle
        simp only [List.filterMap_cons, dirTitleOf]
        rw [show (t :: List.filterMap dirTitleOf xs) =
          [t] ++ List.filterMap dirTitleOf xs from rfl]
        rw [List.getLast?_append]
        rfl
      rw [h1, Option.or_assoc]
      rfl
    | prediction a =>
      have h1 : lastDirTitle (XmlEl.prediction a :: xs) = lastDirTitle xs := by
        simp [lastDirTitle, List.filterMap_cons, dirTitleOf]
      rw [h1]
      rfl
    | other tag =>
      have h1 : lastDirTitle (XmlEl.other tag :: xs) = lastDirTitle xs := by
        simp [lastDirTitle, List.filterMap_cons, dirTitleOf]
      rw [h1]
      rfl

theorem ctxAfter_route_stop (ctx : XmlCtx) :
    ∀ xs, (ctxAfter ctx xs).route_id =
        ((lastRouteStop xs).map (fun p => p.1)).or ctx.route_id ∧
      (ctxAfter ctx xs).stop_name =
        ((lastRouteStop xs).map (fun p => p.2)).or ctx.stop_name := by
  intro xs
  induction xs generalizing ctx with
  | nil => simp [ctxAfter, lastRouteStop]
  | cons e xs ih =>
    have hstep : ctxAfter ctx (e :: xs) = ctxAfter (ctxStep ctx e) xs := rfl
    rw [hstep]
    obtain ⟨ih1, ih2⟩ := ih (ctxStep ctx e)
    rw [ih1, ih2]
    cases e with
    | predictions r s =>
      have h1 : lastRouteStop (XmlEl.predictions r s :: xs) =
          (lastRouteStop xs).or (some (r, s)) := by
        unfold lastRouteStop
        simp only [List.filterMap_cons, routeStopOf]
        rw [show ((r, s) :: List.filterMap routeStopOf xs) =
          [(r, s)] ++ List.filterMap routeStopOf xs from rfl]
        rw [List.getLast?_append]
        rfl
      rw [h1]
      cases hL : lastRouteStop xs <;> simp [ctxStep]
    | direction t =>
      have h1 : lastRouteStop (XmlEl.direction t :: xs) = lastRouteStop xs := by
        simp [lastRouteStop, List.filterMap_cons, routeStopOf]
      rw [h1]
      exact ⟨rfl, rfl⟩
    | prediction a =>
      have h1 : lastRouteStop (XmlEl.prediction a :: xs) = lastRouteStop xs := by
        simp [lastRouteStop, List.filterMap_cons, routeStopOf]
      rw [h1]
      exact ⟨rfl, rfl⟩
    | other tag =>
      have h1 : lastRouteStop (XmlEl.other tag :: xs) = lastRouteStop xs := by
        simp [lastRouteStop, List.filterMap_cons, routeStopOf]
      rw [h1]
      exact ⟨rfl, rfl⟩

end Proxy

/-- C1: in the XML variant, for every well-formed document, the record
emitted for a `prediction` element carries exactly the route id and stop name
of the most recent `predictions` container, and the direction name of the
most recent `direction` element, preceding it in lexical document order
(`lastDirTitle`/`lastRouteStop` of its prefix). In particular a `direction`
followed by three `prediction` siblings stamps all three records with its
title, and a later `direction` element overrides the stored name only for
the predictions that follow it. -/
theorem xml_context_propagation (env : Proxy.EmitEnv) (pre : List Proxy.XmlEl)
    (a : Proxy.PredAttrs) (rest : List Proxy.XmlEl) (recs : List Proxy.XRec)
    (h : Proxy.walkXml env (pre ++ Proxy.XmlEl.prediction a :: rest)
        Proxy.xmlCtxInit = Except.ok recs) :
    ∃ x : Proxy.XRec, recs[Proxy.predCount pre]? = some x ∧
      Proxy.lastDirTitle pre = some x.direction_name ∧
      Proxy.lastRouteStop pre = some (x.route_id, x.stop_name) := by
  obtain ⟨rs1, x, rs2, hrecs, hlen, hemit⟩ :=
    Proxy.walkXml_split env pre a rest Proxy.xmlCtxInit recs h
  obtain ⟨hr, hs, hd⟩ := Proxy.emitPrediction_ok hemit
  have hdir := Proxy.ctxAfter_direction_name Proxy.xmlCtxInit pre
  obtain ⟨hrs1, hrs2⟩ := Proxy.ctxAfter_route_stop Proxy.xmlCtxInit pre
  have hinit_d : Proxy.xmlCtxInit.direction_name = none := rfl
  have hinit_r : Proxy.xmlCtxInit.route_id = none := rfl
  have hinit_s : Proxy.xmlCtxInit.stop_name = none := rfl
  rw [hinit_d, Option.or_none] at hdir
  rw [hinit_r, Option.or_none] at hrs1
  rw [hinit_s, Option.or_none] at hrs2
  refine ⟨x, ?_, ?_, ?_⟩
  · rw [hrecs, ← hlen, List.getElem?_append_right (le_refl rs1.length)]
    simp
  · rw [← hdir]
    exact hd
  · rw [hd] at hdir
    rw [hr] at hrs1
    rw [hs] at hrs2
    cases hL : Proxy.lastRouteStop pre with
    | none =>
      rw [hL] at hrs1
      cases hrs1
    | some p =>
      rw [hL] at hrs1 hrs2
      cases p with
      | mk p1 p2 =>
        injection hrs1 with hrs1
        injection hrs2 with hrs2
        rw [hrs1, hrs2]

/-- Witness for C1 on a concrete document: container, direction, then three
prediction siblings (applied at the first of them). -/
theorem xml_context_propagation_witness :
    ∃ x : Proxy.XRec, egRecs[Proxy.predCount egPre]? = some x ∧
      Proxy.lastDirTitle egPre = some x.direction_name ∧
      Proxy.lastRouteStop egPre = some (x.route_id, x.stop_name) :=
  xml_context_propagation egEnv egPre egAttrs1 egRest egRecs
    (by with_unfolding_all rfl)

/-! ### C7: CSV schema stability -/

theorem except_map_ok {ε α β : Type} (a : α) (f : α → β) :
    (Except.ok a : Except ε α).map f = Except.ok (f a) := rfl

theorem except_map_error {ε α β : Type} (e : ε) (f : α → β) :
    (Except.error e : Except ε α).map f = Except.error e := rfl

theorem exceptMapM_congr {ε α β : Type} {f g : α → Except ε β} :
    ∀ {l : List α}, (∀ a ∈ l, f a = g a) → l.mapM f = l.mapM g := by
  intro l
  induction l with
  | nil => intro _; rfl
  | cons a l ih =>
    intro h
    rw [List.mapM_cons, List.mapM_cons, h a (List.mem_cons_self a l),
      ih (fun b hb => h b (List.mem_cons_of_mem a hb))]

namespace Umoiq

theorem cycleRows_length {m : CycleMeta} {recs : List URec}
    {rows : List (List CsvVal)} (h : cycleRows m recs = Except.ok rows) :
    ∀ row ∈ rows, row.length = field_order.length := by
  unfold cycleRows at h
  intro row hrow
  obtain ⟨r, _, hpr⟩ := exceptMapM_mem h row hrow
  unfold projectRow at hpr
  exact exceptMapM_length hpr

theorem cycle_rows_length {tzOff : Int} {tzName : String} {now : ℚ}
    {resp : HttpResp} {out : List Diag × List (List CsvVal)}
    (h : cycle tzOff tzName now resp = Except.ok out) :
    ∀ row ∈ out.2, row.length = field_order.length := by
  unfold cycle at h
  by_cases hok : resp.ok
  · rw [hok] at h
    simp only [Bool.not_true, Bool.false_eq_true, if_false] at h
    cases hb : resp.jsonBody with
    | error e => rw [hb, except_error_bind] at h; cases h
    | ok body =>
      rw [hb, except_ok_bind] at h
      cases hp : parse_predictions tzOff now body with
      | error e => rw [hp, except_error_bind] at h; cases h
      | ok preds =>
        rw [hp, except_ok_bind] at h
        cases hc : cycleRows
            { request_date := fmtYmd now tzOff, request_time := fmtHms now tzOff,
              request_timezone := tzName,
              response_duration := resp.elapsedSeconds } preds with
        | error e => rw [hc, except_error_bind] at h; cases h
        | ok rows =>
          rw [hc, except_ok_bind] at h
          injection h with h
          subst h
          exact cycleRows_length hc
  · rw [Bool.not_eq_true] at hok
    rw [hok] at h
    simp only [Bool.not_false, if_true] at h
    rw [show mkDiag resp = Except.error "AttributeError: errorMessage" from rfl,
      except_map_error] at h
    cases h

theorem runCycles_rows_length {tzOff : Int} {tzName : String} :
    ∀ {cycles : List (ℚ × HttpResp)} {out : List Diag × List (List CsvVal)},
      runCycles tzOff tzName cycles = Except.ok out →
      ∀ row ∈ out.2, row.length = field_order.length := by
  intro cycles
  induction cycles with
  | nil =>
    intro out h
    injection h with h
    subst h
    intro row hrow
    cases hrow
  | cons c rest ih =>
    intro out h
    cases c with
    | mk now resp =>
      simp only [runCycles] at h
      cases hc : cycle tzOff tzName now resp with
      | error e => rw [hc, except_error_bind] at h; cases h
      | ok o =>
        rw [hc, except_ok_bind] at h
        cases hr : runCycles tzOff tzName rest with
        | error e => rw [hr, except_error_bind] at h; cases h
        | ok os =>
          rw [hr, except_ok_bind] at h
          injection h with h
          subst h
          intro row hrow
          rcases List.mem_append.mp hrow with hrow | hrow
          · exact cycle_rows_length hc row hrow
          · exact ih hr row hrow

end Umoiq

/-- C7: within one run the CSV header (the declared field names with
underscores rendered as spaces) is emitted exactly once, at the head of the
output; every data row of every cycle has exactly as many cells as the
header, in the declared `field_order`; and the schema projection is
insensitive to extra record keys: appending any extra bindings to a record
that already has every declared field leaves the projected row unchanged. -/
theorem csv_schema_stability (tzOff : Int) (tzName : String)
    (cycles : List (ℚ × HttpResp)) (out : List (List Umoiq.CsvVal))
    (h : Umoiq.runCsv tzOff tzName cycles = Except.ok out) :
    (∃ rows, out = Umoiq.headerRow :: rows ∧
      ∀ row ∈ rows, row.length = Umoiq.headerRow.length) ∧
    (∀ d extra : List (String × Umoiq.CsvVal),
      (∀ k ∈ Umoiq.field_order, (d.lookup k).isSome) →
      Umoiq.projectRow (d ++ extra) = Umoiq.projectRow d) := by
  constructor
  · unfold Umoiq.runCsv at h
    cases hrc : Umoiq.runCycles tzOff tzName cycles with
    | error e => rw [hrc, except_error_bind] at h; cases h
    | ok outs =>
      rw [hrc, except_ok_bind] at h
      injection h with h
      subst h
      refine ⟨outs.2, rfl, ?_⟩
      have hlen : Umoiq.headerRow.length = Umoiq.field_order.length := by
        unfold Umoiq.headerRow
        exact List.length_map _ _
      intro row hrow
      rw [hlen]
      exact Umoiq.runCycles_rows_length hrc row hrow
  · intro d extra hall
    unfold Umoiq.projectRow
    apply exceptMapM_congr
    intro k hk
    have hsome := hall k hk
    cases hd : d.lookup k with
    | none => rw [hd] at hsome; cases hsome
    | some v => rw [lookup_append_left hd extra]

/-- Witness for C7 on a one-cycle run over `goodBody` (header plus two data
rows of twenty cells each). -/
theorem csv_schema_stability_witness :
    (∃ rows, goodCsv = Umoiq.headerRow :: rows ∧
      ∀ row ∈ rows, row.length = Umoiq.headerRow.length) ∧
    (∀ d extra : List (String × Umoiq.CsvVal),
      (∀ k ∈ Umoiq.field_order, (d.lookup k).isSome) →
      Umoiq.projectRow (d ++ extra) = Umoiq.projectRow d) :=
  csv_schema_stability 0 "UTC" [(0, jsonRespGood)] goodCsv
    (by with_unfolding_all rfl)

/-! ### C5: fetch-failure isolation -/

/-- C5: the claimed log-skip-continue behavior is unreachable in the code:
on any non-success response, both variants build the stderr diagnostic dict
by reading `resp.errorMessage` — an attribute the HTTP client's `Response`
object does not define — so the print raises an uncaught `AttributeError`.
Nothing is logged to the error channel, the cycle produces zero rows only
because the process dies, and the loop never reaches the next scheduled
tick. In the XML variant the crash happens before the body is archived or
parsed, even when the error body is a well-formed predictions document. -/
theorem fetch_failure_crashes_loop :
    jsonRespFail.ok = false ∧
    Umoiq.cycle 0 "UTC" 0 jsonRespFail =
      Except.error "AttributeError: errorMessage" ∧
    Umoiq.runCycles 0 "UTC" [(0, jsonRespFail), (0, jsonRespGood)] =
      Except.error "AttributeError: errorMessage" ∧
    xmlRespBad.ok = false ∧
    Proxy.cycle 0 "UTC" "15419" 0 xmlRespBad =
      Except.error "AttributeError: errorMessage" :=
  ⟨rfl, by with_unfolding_all rfl, by with_unfolding_all rfl, rfl,
    by with_unfolding_all rfl⟩

/-! ### C6: parse failures are NOT contained (code bug) -/

/-- C6: the loop has no exception handler, so a parse failure terminates the
whole run instead of aborting only its cycle: a 200 response whose JSON body
is `[{}]` (a group missing the expected `values` key) makes the cycle — and
the loop — end in `KeyError`, and the following cycle's records, which parse
fine on their own (two rows), are never produced. -/
theorem parse_failure_crashes_process :
    Umoiq.cycle 0 "UTC" 0 jsonRespBadBody = Except.error "KeyError: values" ∧
    Umoiq.runCycles 0 "UTC" [(0, jsonRespBadBody), (0, jsonRespGood)] =
      Except.error "KeyError: values" ∧
    (∃ out, Umoiq.runCycles 0 "UTC" [(0, jsonRespGood)] = Except.ok out ∧
      out.2.length = 2) := by
  refine ⟨by with_unfolding_all rfl, by with_unfolding_all rfl,
    ⟨(Umoiq.runCycles 0 "UTC" [(0, jsonRespGood)]).toOption.getD ([], []),
      by with_unfolding_all rfl, by with_unfolding_all rfl⟩⟩
